import Mathlib

/-!
Shallow embedding of `components/hord-cli/src/core/pipeline/processors/inscription_indexing.rs`
(the inscription-indexing post-processor of the ordhook repository).

The file models:
  * the per-block transactional processing (`process_block`, `process_blocks`),
  * the runloop worker (`start_inscription_indexing_processor`), embedded as a
    state machine `runloop` consuming a trace of `try_recv` outcomes,
  * the readiness barrier before the loop (`runWorker`).

External collaborators (the protocol library, the SQLite engine, the block
store) are modelled by an oracle structure `ProtocolOracle` that fixes, for
each block, the outcome of the external calls; the control flow around those
calls is translated directly from the Rust source.
-/

/-- Abstracted `TraversalResult` (L1 cache value): the value content is
irrelevant to the processor's control flow. -/
abbrev TraversalResult := Nat

/-- Abstracted `LazyBlockTransaction` (L2 cache value). -/
abbrev LazyBlockTransaction := Nat

/-- L1 cache: keyed by `(TransactionIdentifier, usize)`, both abstracted to `Nat`.
The Rust `BTreeMap` is modelled as an association list, additive within a batch. -/
abbrev CacheL1 := List ((Nat × Nat) × TraversalResult)

/-- L2 cache: keyed by `(u32, [u8; 8])`, both abstracted to `Nat`.
The Rust `DashMap` is modelled as an association list, additive between clears. -/
abbrev CacheL2 := List ((Nat × Nat) × LazyBlockTransaction)

/-- Abstracted `CompactedBlock`: its content is opaque to this processor. -/
abbrev CompactedBlock := Nat

/-- `BitcoinBlockData`, restricted to the fields this processor observes or
mutates: the height (`block_identifier.index`), an abstract identifier
(`block_identifier.hash`), and the augmentation payload attached by the
protocol library (revealed inscriptions and ordinal transfers). -/
structure BitcoinBlockData where
  height : Nat
  hash : Nat
  inscriptions : List Nat
  transfers : List Nat
  deriving Repr, DecidableEq

/-- Durable state of the relational store, restricted to what this processor
reads and writes: one entry (recording the height) per ordinal-activity row,
and the persisted next-sequence number of the `SequenceCursor` (its logical
advancement persists only when the enclosing transaction commits). -/
structure DbState where
  activities : List Nat
  nextSequence : Nat
  deriving Repr, DecidableEq

/-- `get_any_entry_in_ordinal_activities`: whether any ordinal activity exists
at the given height in the transaction's view of the store. -/
def get_any_entry_in_ordinal_activities (height : Nat) (tx : DbState) : Bool :=
  tx.activities.contains height

/-- Result of one call to `parallelize_inscription_data_computations`:
its `Result<bool, String>` value, plus the entries the parallel stage
inserted into the two caches while running. -/
structure ComputeResult where
  relevant : Except String Bool
  l1Add : CacheL1
  l2Add : CacheL2
  deriving Repr

/-- Oracle fixing the behaviour of the external collaborators for each block:
the protocol computation, the augmentation payloads, and whether the SQLite
`commit()` call succeeds. The processor's own control flow is not part of
the oracle; it is translated from the source. -/
structure ProtocolOracle where
  compute : BitcoinBlockData → List BitcoinBlockData → ComputeResult
  inscriptionsOf : BitcoinBlockData → List Nat
  transfersOf : BitcoinBlockData → List Nat
  commitOk : BitcoinBlockData → Bool

/-- `process_block`: runs the protocol computation over the block, the
look-ahead context, both caches and the open transaction; on a relevant
block, augments it with inscription data (advancing the sequence cursor and
writing rows inside the transaction) and with transfer data. Returns the
`Result` of the function together with the mutated block, caches and
transaction state. -/
def process_block (o : ProtocolOracle) (block : BitcoinBlockData)
    (next_blocks : List BitcoinBlockData) (cache_l1 : CacheL1)
    (cache_l2 : CacheL2) (inscriptions_db_tx : DbState) :
    Except String Unit × BitcoinBlockData × CacheL1 × CacheL2 × DbState :=
  let r := o.compute block next_blocks
  let cache_l1 := cache_l1 ++ r.l1Add
  let cache_l2 := cache_l2 ++ r.l2Add
  match r.relevant with
  | .error e => (.error e, block, cache_l1, cache_l2, inscriptions_db_tx)
  | .ok false => (.ok (), block, cache_l1, cache_l2, inscriptions_db_tx)
  | .ok true =>
      let revealed := o.inscriptionsOf block
      let block := { block with inscriptions := block.inscriptions ++ revealed }
      let tx := { inscriptions_db_tx with
                    activities := inscriptions_db_tx.activities
                      ++ revealed.map (fun _ => block.height)
                    nextSequence := inscriptions_db_tx.nextSequence + revealed.length }
      let transferred := o.transfersOf block
      let block := { block with transfers := block.transfers ++ transferred }
      let tx := { tx with
                    activities := tx.activities
                      ++ transferred.map (fun _ => block.height) }
      (.ok (), block, cache_l1, cache_l2, tx)

/-- Outcome of the per-block DB transaction: rolled back (pre-existing
activity at the height), committed, or commit attempted but failed. -/
inductive TxOutcome
  | rolledBack
  | committed
  | commitFailed
  deriving Repr, DecidableEq

/-- State threaded through one `process_blocks` batch: the durable store,
the two caches, the blocks sent to the optional downstream sink, the
accumulating return set `updated_blocks`, and one `TxOutcome` per opened
per-block transaction. -/
structure BatchState where
  db : DbState
  cache_l1 : CacheL1
  cache_l2 : CacheL2
  sink : List BitcoinBlockData
  updated_blocks : List BitcoinBlockData
  outcomes : List TxOutcome
  deriving Repr, DecidableEq

/-- Body of the `for` loop of `process_blocks`: open a transaction, capture
the idempotency check, run `process_block` (its `Result` discarded), then
rollback when prior activity existed and commit otherwise (a commit failure
is logged and swallowed); finally forward the block to the optional sink and
append it to the return set. -/
def process_blocks_step (o : ProtocolOracle) (hasSink : Bool)
    (st : BatchState) (block : BitcoinBlockData)
    (next_blocks : List BitcoinBlockData) : BatchState :=
  let inscriptions_db_tx := st.db
  let any_existing_activity :=
    get_any_entry_in_ordinal_activities block.height inscriptions_db_tx
  let res := process_block o block next_blocks st.cache_l1 st.cache_l2
      inscriptions_db_tx
  let block := res.2.1
  let cache_l1 := res.2.2.1
  let cache_l2 := res.2.2.2.1
  let tx := res.2.2.2.2
  let outcome : TxOutcome :=
    if any_existing_activity then .rolledBack
    else if o.commitOk block then .committed
    else .commitFailed
  let db : DbState :=
    if any_existing_activity then st.db
    else if o.commitOk block then tx
    else st.db
  { db := db
    cache_l1 := cache_l1
    cache_l2 := cache_l2
    sink := st.sink ++ (if hasSink then [block] else [])
    updated_blocks := st.updated_blocks ++ [block]
    outcomes := st.outcomes ++ [outcome] }

/-- The `for` loop of `process_blocks`: blocks are removed from the front one
at a time, each processed with the remaining blocks as look-ahead context. -/
def process_blocks_go (o : ProtocolOracle) (hasSink : Bool) :
    List BitcoinBlockData → BatchState → BatchState
  | [], st => st
  | block :: rest, st =>
      process_blocks_go o hasSink rest (process_blocks_step o hasSink st block rest)

/-- `process_blocks`: processes a batch with a fresh (empty) L1 cache and an
empty return set, starting from the given durable store and L2 cache. -/
def process_blocks (o : ProtocolOracle) (hasSink : Bool)
    (next_blocks : List BitcoinBlockData) (db : DbState)
    (cache_l2 : CacheL2) : BatchState :=
  process_blocks_go o hasSink next_blocks
    { db := db
      cache_l1 := []
      cache_l2 := cache_l2
      sink := []
      updated_blocks := []
      outcomes := [] }

/-- `PostProcessorCommand` (the inbound command variant). -/
inductive PostProcessorCommand
  | start
  | processBlocks (compacted_blocks : List CompactedBlock)
      (blocks : List BitcoinBlockData)
  | terminate
  deriving Repr, DecidableEq

/-- `PostProcessorEvent` (the outbound event variant). -/
inductive PostProcessorEvent
  | emptyQueue
  deriving Repr, DecidableEq

/-- Outcome of one non-blocking `try_recv` poll on the command channel:
a command, `TryRecvError::Empty`, or any other receive error
(`TryRecvError::Disconnected`). -/
inductive RecvResult
  | ok (cmd : PostProcessorCommand)
  | empty
  | disconnected
  deriving Repr, DecidableEq

/-- `garbage_collect_every_n_blocks` (the L2 clear threshold). -/
def garbage_collect_every_n_blocks : Nat := 100

/-- Observable state of the runloop worker: the idle-poll counter
(`empty_cycles`), the cumulative processed-block counter
(`garbage_collect_nth_block`), the durable store, the L2 cache, and the
observable traces — one entry per `store_compacted_blocks` call, the events
delivered on the events channel, the blocks sent to the downstream sink, one
`TxOutcome` per per-block DB transaction ever opened, and the number of L2
clears performed. -/
structure LoopState where
  empty_cycles : Nat
  garbage_collect_nth_block : Nat
  db : DbState
  cache_l2 : CacheL2
  storeCalls : List (List CompactedBlock)
  events : List PostProcessorEvent
  sink : List BitcoinBlockData
  outcomes : List TxOutcome
  l2Clears : Nat
  deriving Repr, DecidableEq

/-- The worker's poll loop, consuming a trace of `try_recv` outcomes.
`eventsConnected` records whether the events receiver is still alive: a send
on the unbounded events channel delivers the event only in that case, and its
result is discarded either way. `Terminate`, or any receive error other than
`Empty`, breaks the loop; `Start` observed mid-loop is a no-op; `Empty`
increments the idle counter, emitting `EmptyQueue` and resetting the counter
when it reaches 10. A `ProcessBlocks` command resets the idle counter, always
stores the compacted blocks, returns to polling at once when the full-block
set is empty, and otherwise runs the batch, adds the result size to the
cumulative counter and clears the L2 cache in full when that counter exceeds
the threshold. -/
def runloop (o : ProtocolOracle) (hasSink : Bool) (eventsConnected : Bool) :
    LoopState → List RecvResult → LoopState
  | s, [] => s
  | s, .ok .terminate :: _ => s
  | s, .disconnected :: _ => s
  | s, .ok .start :: rest => runloop o hasSink eventsConnected s rest
  | s, .empty :: rest =>
      let s :=
        if s.empty_cycles + 1 = 10 then
          { s with
              empty_cycles := 0
              events := s.events
                ++ (if eventsConnected then [PostProcessorEvent.emptyQueue] else []) }
        else
          { s with empty_cycles := s.empty_cycles + 1 }
      runloop o hasSink eventsConnected s rest
  | s, .ok (.processBlocks compacted_blocks blocks) :: rest =>
      let s := { s with empty_cycles := 0 }
      if blocks.isEmpty then
        let s := { s with storeCalls := s.storeCalls ++ [compacted_blocks] }
        runloop o hasSink eventsConnected s rest
      else
        let s := { s with storeCalls := s.storeCalls ++ [compacted_blocks] }
        let r := process_blocks o hasSink blocks s.db s.cache_l2
        let s := { s with
                     db := r.db
                     cache_l2 := r.cache_l2
                     sink := s.sink ++ r.sink
                     outcomes := s.outcomes ++ r.outcomes
                     garbage_collect_nth_block :=
                       s.garbage_collect_nth_block + r.updated_blocks.length }
        let s :=
          if s.garbage_collect_nth_block > garbage_collect_every_n_blocks then
            { s with
                cache_l2 := []
                garbage_collect_nth_block := 0
                l2Clears := s.l2Clears + 1 }
          else s
        runloop o hasSink eventsConnected s rest

/-- Worker state on entry to the loop: counters at zero, a freshly allocated
(empty) L2 cache, the durable store as found on disk, and empty traces. -/
def initLoopState (db0 : DbState) : LoopState :=
  { empty_cycles := 0
    garbage_collect_nth_block := 0
    db := db0
    cache_l2 := []
    storeCalls := []
    events := []
    sink := []
    outcomes := []
    l2Clears := 0 }

/-- The worker body including the readiness barrier: one blocking `recv` is
consumed before the loop begins; only `Ok(Start)` produces the startup log
line, and whatever the result was, the poll loop then begins. Returns the
barrier's log output together with the loop's final state. -/
def runWorker (o : ProtocolOracle) (hasSink : Bool) (eventsConnected : Bool)
    (db0 : DbState) (first : Except Unit PostProcessorCommand)
    (trace : List RecvResult) : List String × LoopState :=
  let logs :=
    match first with
    | .ok .start => ["Start inscription indexing runloop"]
    | _ => []
  (logs, runloop o hasSink eventsConnected (initLoopState db0) trace)

/-! ### Concrete fixtures for witnesses -/

/-- A concrete oracle: every block is relevant, reveals one inscription,
transfers nothing, and every commit succeeds. -/
def demoOracle : ProtocolOracle :=
  { compute := fun _ _ => { relevant := .ok true, l1Add := [], l2Add := [] }
    inscriptionsOf := fun _ => [7]
    transfersOf := fun _ => []
    commitOk := fun _ => true }

/-- A concrete oracle: no block has a relevant transaction. -/
def demoOracleIrrelevant : ProtocolOracle :=
  { compute := fun _ _ => { relevant := .ok false, l1Add := [], l2Add := [] }
    inscriptionsOf := fun _ => []
    transfersOf := fun _ => []
    commitOk := fun _ => true }

/-- A concrete oracle: the protocol computation always fails. -/
def demoOracleFailing : ProtocolOracle :=
  { compute := fun _ _ =>
      { relevant := .error "compute failed", l1Add := [], l2Add := [] }
    inscriptionsOf := fun _ => []
    transfersOf := fun _ => []
    commitOk := fun _ => false }

/-- A concrete block at height 500. -/
def demoBlock : BitcoinBlockData :=
  { height := 500, hash := 1, inscriptions := [], transfers := [] }

/-- A concrete store that already holds activity at height 500. -/
def demoDb : DbState := { activities := [500], nextSequence := 3 }

/-- A concrete empty store. -/
def demoDbEmpty : DbState := { activities := [], nextSequence := 0 }

/-- A concrete batch state over `demoDb`. -/
def demoBatchState : BatchState :=
  { db := demoDb
    cache_l1 := []
    cache_l2 := []
    sink := []
    updated_blocks := []
    outcomes := [] }


/-- A concrete batch state over the empty store. -/
def demoBatchStateEmpty : BatchState :=
  { db := demoDbEmpty
    cache_l1 := []
    cache_l2 := []
    sink := []
    updated_blocks := []
    outcomes := [] }

/-- A concrete batch of 100 blocks at heights 0..99. -/
def demoBlocks100 : List BitcoinBlockData :=
  (List.range 100).map
    (fun i => { height := i, hash := i, inscriptions := [], transfers := [] })

/-- The compacted-block sets the runloop hands to `store_compacted_blocks`,
one per `ProcessBlocks` command polled before the loop breaks. -/
def storedSets : List RecvResult → List (List CompactedBlock)
  | [] => []
  | .ok .terminate :: _ => []
  | .disconnected :: _ => []
  | .ok .start :: rest => storedSets rest
  | .empty :: rest => storedSets rest
  | .ok (.processBlocks compacted_blocks _) :: rest =>
      compacted_blocks :: storedSets rest

/-- A batch state with the sink trace erased, for comparing runs that differ
only in the presence of the downstream sink. -/
def BatchState.eraseSink (st : BatchState) : BatchState :=
  { st with sink := [] }

/-- A loop state with the delivered-events trace erased, for comparing runs
that differ only in the liveness of the events receiver. -/
def LoopState.eraseEvents (s : LoopState) : LoopState :=
  { s with events := [] }

/-! ### Basic facts about `process_block` -/

theorem process_block_height (o : ProtocolOracle) (block : BitcoinBlockData)
    (next_blocks : List BitcoinBlockData) (l1 : CacheL1) (l2 : CacheL2)
    (tx : DbState) :
    (process_block o block next_blocks l1 l2 tx).2.1.height = block.height := by
  cases h : (o.compute block next_blocks).relevant with
  | error e => simp [process_block, h]
  | ok b => cases b <;> simp [process_block, h]

theorem process_block_hash (o : ProtocolOracle) (block : BitcoinBlockData)
    (next_blocks : List BitcoinBlockData) (l1 : CacheL1) (l2 : CacheL2)
    (tx : DbState) :
    (process_block o block next_blocks l1 l2 tx).2.1.hash = block.hash := by
  cases h : (o.compute block next_blocks).relevant with
  | error e => simp [process_block, h]
  | ok b => cases b <;> simp [process_block, h]

/-- Whatever the protocol computation does, the transaction state produced by
`process_block` only appends activity rows, all at the block's own height. -/
theorem process_block_tx_activities (o : ProtocolOracle)
    (block : BitcoinBlockData) (next_blocks : List BitcoinBlockData)
    (l1 : CacheL1) (l2 : CacheL2) (tx : DbState) :
    ∃ k, (process_block o block next_blocks l1 l2 tx).2.2.2.2.activities
      = tx.activities ++ List.replicate k block.height := by
  cases h : (o.compute block next_blocks).relevant with
  | error e => exact ⟨0, by simp [process_block, h]⟩
  | ok b =>
      cases b with
      | false => exact ⟨0, by simp [process_block, h]⟩
      | true =>
          refine ⟨(o.inscriptionsOf block).length
            + (o.transfersOf { block with
                inscriptions := block.inscriptions ++ o.inscriptionsOf block }).length, ?_⟩
          simp only [process_block, h]
          rw [List.map_const', List.map_const', List.replicate_add,
            List.append_assoc]

/-- On a non-relevant block, `process_block` leaves the block and the
transaction untouched and returns `Ok(())`. -/
theorem process_block_not_relevant (o : ProtocolOracle)
    (block : BitcoinBlockData) (next_blocks : List BitcoinBlockData)
    (l1 : CacheL1) (l2 : CacheL2) (tx : DbState)
    (h : (o.compute block next_blocks).relevant = Except.ok false) :
    process_block o block next_blocks l1 l2 tx
      = (Except.ok (), block, l1 ++ (o.compute block next_blocks).l1Add,
          l2 ++ (o.compute block next_blocks).l2Add, tx) := by
  simp [process_block, h]

/-- On a failing protocol computation, `process_block` propagates the error
and leaves the block and the transaction untouched. -/
theorem process_block_error (o : ProtocolOracle)
    (block : BitcoinBlockData) (next_blocks : List BitcoinBlockData)
    (l1 : CacheL1) (l2 : CacheL2) (tx : DbState) (e : String)
    (h : (o.compute block next_blocks).relevant = Except.error e) :
    process_block o block next_blocks l1 l2 tx
      = (Except.error e, block, l1 ++ (o.compute block next_blocks).l1Add,
          l2 ++ (o.compute block next_blocks).l2Add, tx) := by
  simp [process_block, h]

/-! ### Facts about the batch loop `process_blocks_go` -/

theorem process_blocks_go_updated_map (o : ProtocolOracle) (hasSink : Bool)
    (blocks : List BitcoinBlockData) :
    ∀ st : BatchState,
    (process_blocks_go o hasSink blocks st).updated_blocks.map
        (fun b => (b.height, b.hash))
      = st.updated_blocks.map (fun b => (b.height, b.hash))
        ++ blocks.map (fun b => (b.height, b.hash)) := by
  induction blocks with
  | nil => intro st; simp [process_blocks_go]
  | cons block rest ih =>
      intro st
      rw [process_blocks_go, ih]
      simp [process_blocks_step, process_block_height, process_block_hash]

theorem process_blocks_go_updated_length (o : ProtocolOracle) (hasSink : Bool)
    (blocks : List BitcoinBlockData) :
    ∀ st : BatchState,
    (process_blocks_go o hasSink blocks st).updated_blocks.length
      = st.updated_blocks.length + blocks.length := by
  induction blocks with
  | nil => intro st; simp [process_blocks_go]
  | cons block rest ih =>
      intro st
      rw [process_blocks_go, ih]
      simp [process_blocks_step]
      omega

theorem process_blocks_go_outcomes_length (o : ProtocolOracle) (hasSink : Bool)
    (blocks : List BitcoinBlockData) :
    ∀ st : BatchState,
    (process_blocks_go o hasSink blocks st).outcomes.length
      = st.outcomes.length + blocks.length := by
  induction blocks with
  | nil => intro st; simp [process_blocks_go]
  | cons block rest ih =>
      intro st
      rw [process_blocks_go, ih]
      simp [process_blocks_step]
      omega

/-- With a sink present, every block appended to the return set is also sent
to the sink, in the same order. -/
theorem process_blocks_go_sink_eq_updated (o : ProtocolOracle)
    (blocks : List BitcoinBlockData) :
    ∀ st : BatchState, st.sink = st.updated_blocks →
    (process_blocks_go o true blocks st).sink
      = (process_blocks_go o true blocks st).updated_blocks := by
  induction blocks with
  | nil => intro st h; simpa [process_blocks_go] using h
  | cons block rest ih =>
      intro st h
      rw [process_blocks_go]
      exact ih _ (by simp [process_blocks_step, h])

/-- With no sink configured, nothing is ever sent to one. -/
theorem process_blocks_go_sink_none (o : ProtocolOracle)
    (blocks : List BitcoinBlockData) :
    ∀ st : BatchState,
    (process_blocks_go o false blocks st).sink = st.sink := by
  induction blocks with
  | nil => intro st; simp [process_blocks_go]
  | cons block rest ih =>
      intro st
      rw [process_blocks_go, ih]
      simp [process_blocks_step]

/-- If activity already exists at height `h`, one batch step leaves the
number of durable activity rows at `h` unchanged: rows at `h` are only ever
written by a block of height `h`, and such a block is rolled back. -/
theorem process_blocks_step_count (o : ProtocolOracle) (hasSink : Bool)
    (st : BatchState) (block : BitcoinBlockData)
    (next_blocks : List BitcoinBlockData) (h : Nat)
    (hmem : get_any_entry_in_ordinal_activities h st.db = true) :
    (process_blocks_step o hasSink st block next_blocks).db.activities.count h
      = st.db.activities.count h ∧
    get_any_entry_in_ordinal_activities h
      (process_blocks_step o hasSink st block next_blocks).db = true := by
  by_cases hb : get_any_entry_in_ordinal_activities block.height st.db = true
  · constructor <;> simp [process_blocks_step, hb, hmem]
  · have hne : block.height ≠ h := by
      intro he
      rw [he] at hb
      exact hb hmem
    obtain ⟨k, hk⟩ := process_block_tx_activities o block next_blocks
      st.cache_l1 st.cache_l2 st.db
    by_cases hc : o.commitOk
        (process_block o block next_blocks st.cache_l1 st.cache_l2 st.db).2.1
        = true
    · have hdb : (process_blocks_step o hasSink st block next_blocks).db
          = (process_block o block next_blocks st.cache_l1 st.cache_l2
              st.db).2.2.2.2 := by
        simp [process_blocks_step, hb, hc]
      rw [hdb, hk]
      constructor
      · rw [List.count_append, List.count_replicate]
        simp [hne]
      · unfold get_any_entry_in_ordinal_activities at hmem ⊢
        rw [hk]
        simp only [List.elem_eq_mem, List.mem_append, decide_eq_true_eq]
          at hmem ⊢
        exact Or.inl hmem
    · have hdb : (process_blocks_step o hasSink st block next_blocks).db
          = st.db := by
        simp [process_blocks_step, hb, hc]
      rw [hdb]
      exact ⟨rfl, hmem⟩

/-- Over a whole batch, the number of durable activity rows at any height
that already had activity before the batch is unchanged. -/
theorem process_blocks_go_count (o : ProtocolOracle) (hasSink : Bool)
    (blocks : List BitcoinBlockData) :
    ∀ (st : BatchState) (h : Nat),
    get_any_entry_in_ordinal_activities h st.db = true →
    (process_blocks_go o hasSink blocks st).db.activities.count h
      = st.db.activities.count h ∧
    get_any_entry_in_ordinal_activities h
      (process_blocks_go o hasSink blocks st).db = true := by
  induction blocks with
  | nil =>
      intro st h hm
      exact ⟨rfl, hm⟩
  | cons block rest ih =>
      intro st h hm
      rw [process_blocks_go]
      obtain ⟨h1, h2⟩ := process_blocks_step_count o hasSink st block rest h hm
      obtain ⟨h3, h4⟩ := ih _ h h2
      exact ⟨h3.trans h1, h4⟩

/-! ### Claims -/

/-- C1: for every block in a batch, if the pre-mutation idempotency check
(captured before any mutation) returns true, the per-block DB transaction is
always rolled back and never committed — the step leaves the durable store
untouched and records a rollback — and across the whole batch the durable
ordinal-activity state at that height is unchanged by reprocessing. -/
theorem C1_preexisting_activity_always_rolls_back :
    (∀ (o : ProtocolOracle) (hasSink : Bool) (st : BatchState)
       (block : BitcoinBlockData) (next_blocks : List BitcoinBlockData),
       get_any_entry_in_ordinal_activities block.height st.db = true →
         (process_blocks_step o hasSink st block next_blocks).db = st.db ∧
         (process_blocks_step o hasSink st block next_blocks).outcomes
           = st.outcomes ++ [TxOutcome.rolledBack]) ∧
    (∀ (o : ProtocolOracle) (hasSink : Bool) (blocks : List BitcoinBlockData)
       (db : DbState) (cache_l2 : CacheL2) (h : Nat),
       get_any_entry_in_ordinal_activities h db = true →
         (process_blocks o hasSink blocks db cache_l2).db.activities.count h
           = db.activities.count h) := by
  constructor
  · intro o hasSink st block next_blocks hck
    constructor <;> simp [process_blocks_step, hck]
  · intro o hasSink blocks db cache_l2 h hm
    exact (process_blocks_go_count o hasSink blocks _ h hm).1

/-- Witness for C1 at a concrete reprocessed height. -/
theorem C1_preexisting_activity_always_rolls_back_witness :
    (process_blocks_step demoOracle true demoBatchState demoBlock []).db
      = demoBatchState.db ∧
    (process_blocks_step demoOracle true demoBatchState demoBlock []).outcomes
      = demoBatchState.outcomes ++ [TxOutcome.rolledBack] ∧
    (process_blocks demoOracle true [demoBlock] demoDb []).db.activities.count
        500
      = demoDb.activities.count 500 :=
  ⟨(C1_preexisting_activity_always_rolls_back.1 demoOracle true demoBatchState
      demoBlock [] (by decide)).1,
   (C1_preexisting_activity_always_rolls_back.1 demoOracle true demoBatchState
      demoBlock [] (by decide)).2,
   C1_preexisting_activity_always_rolls_back.2 demoOracle true [demoBlock]
      demoDb [] 500 (by decide)⟩

/-- One batch step's observables other than the sink trace do not depend on
the sink's presence or prior sink contents. -/
theorem process_blocks_step_eraseSink (o : ProtocolOracle)
    (hasSink₁ hasSink₂ : Bool) (st₁ st₂ : BatchState)
    (block : BitcoinBlockData) (next_blocks : List BitcoinBlockData)
    (h : st₁.eraseSink = st₂.eraseSink) :
    (process_blocks_step o hasSink₁ st₁ block next_blocks).eraseSink
      = (process_blocks_step o hasSink₂ st₂ block next_blocks).eraseSink := by
  obtain ⟨db₁, l11, l21, sk₁, u₁, oc₁⟩ := st₁
  obtain ⟨db₂, l12, l22, sk₂, u₂, oc₂⟩ := st₂
  simp only [BatchState.eraseSink, BatchState.mk.injEq] at h
  obtain ⟨h1, h2, h3, -, h4, h5⟩ := h
  subst h1 h2 h3 h4 h5
  simp [process_blocks_step, BatchState.eraseSink]

/-- Over a whole batch, the observables other than the sink trace do not
depend on the sink's presence. -/
theorem process_blocks_go_eraseSink (o : ProtocolOracle)
    (blocks : List BitcoinBlockData) :
    ∀ (st₁ st₂ : BatchState) (hasSink₁ hasSink₂ : Bool),
    st₁.eraseSink = st₂.eraseSink →
    (process_blocks_go o hasSink₁ blocks st₁).eraseSink
      = (process_blocks_go o hasSink₂ blocks st₂).eraseSink := by
  induction blocks with
  | nil => intro st₁ st₂ hasSink₁ hasSink₂ h; exact h
  | cons block rest ih =>
      intro st₁ st₂ hasSink₁ hasSink₂ h
      rw [process_blocks_go, process_blocks_go]
      exact ih _ _ _ _
        (process_blocks_step_eraseSink o hasSink₁ hasSink₂ st₁ st₂ block rest h)

/-- C6: within one batch, blocks are processed strictly sequentially in
delivered order, one at a time, and the return set has exactly one entry per
input block, in delivered order: each entry is the delivered block (possibly
augmented), identified by its height and hash. -/
theorem C6_batch_returns_blocks_in_delivered_order :
    ∀ (o : ProtocolOracle) (hasSink : Bool) (blocks : List BitcoinBlockData)
      (db : DbState) (cache_l2 : CacheL2),
      (process_blocks o hasSink blocks db cache_l2).updated_blocks.length
        = blocks.length ∧
      (process_blocks o hasSink blocks db cache_l2).updated_blocks.map
          (fun b => (b.height, b.hash))
        = blocks.map (fun b => (b.height, b.hash)) := by
  intro o hasSink blocks db cache_l2
  constructor
  · simpa using process_blocks_go_updated_length o hasSink blocks
      { db := db, cache_l1 := [], cache_l2 := cache_l2, sink := [],
        updated_blocks := [], outcomes := [] }
  · simpa using process_blocks_go_updated_map o hasSink blocks
      { db := db, cache_l1 := [], cache_l2 := cache_l2, sink := [],
        updated_blocks := [], outcomes := [] }

/-- C7: a protocol-computation failure or a commit failure on one block never
aborts the batch — whatever the oracle's failures, every input block yields a
return-set entry; with a sink present every such block is forwarded to the
sink in order, regardless of commit outcome; sink absence changes nothing
else; and a block whose computation fails is still appended and forwarded,
unaugmented. -/
theorem C7_soft_errors_never_abort_batch :
    (∀ (o : ProtocolOracle) (hasSink : Bool) (blocks : List BitcoinBlockData)
       (db : DbState) (cache_l2 : CacheL2),
       (process_blocks o hasSink blocks db cache_l2).updated_blocks.length
         = blocks.length) ∧
    (∀ (o : ProtocolOracle) (blocks : List BitcoinBlockData) (db : DbState)
       (cache_l2 : CacheL2),
       (process_blocks o true blocks db cache_l2).sink
         = (process_blocks o true blocks db cache_l2).updated_blocks) ∧
    (∀ (o : ProtocolOracle) (blocks : List BitcoinBlockData) (db : DbState)
       (cache_l2 : CacheL2),
       (process_blocks o true blocks db cache_l2).eraseSink
         = (process_blocks o false blocks db cache_l2).eraseSink) ∧
    (∀ (o : ProtocolOracle) (hasSink : Bool) (st : BatchState)
       (block : BitcoinBlockData) (next_blocks : List BitcoinBlockData),
       (process_blocks_step o hasSink st block next_blocks).updated_blocks
         = st.updated_blocks
           ++ [(process_block o block next_blocks st.cache_l1 st.cache_l2
                 st.db).2.1]) ∧
    (∀ (o : ProtocolOracle) (hasSink : Bool) (st : BatchState)
       (block : BitcoinBlockData) (next_blocks : List BitcoinBlockData)
       (e : String),
       (o.compute block next_blocks).relevant = Except.error e →
       (process_blocks_step o hasSink st block next_blocks).updated_blocks
         = st.updated_blocks ++ [block] ∧
       (process_blocks_step o hasSink st block next_blocks).sink
         = st.sink ++ (if hasSink then [block] else [])) := by
  refine ⟨?_, ?_, ?_, ?_, ?_⟩
  · intro o hasSink blocks db cache_l2
    simpa using process_blocks_go_updated_length o hasSink blocks
      { db := db, cache_l1 := [], cache_l2 := cache_l2, sink := [],
        updated_blocks := [], outcomes := [] }
  · intro o blocks db cache_l2
    exact process_blocks_go_sink_eq_updated o blocks _ rfl
  · intro o blocks db cache_l2
    exact process_blocks_go_eraseSink o blocks _ _ _ _ rfl
  · intro o hasSink st block next_blocks
    simp [process_blocks_step]
  · intro o hasSink st block next_blocks e hrel
    have hpb := process_block_error o block next_blocks st.cache_l1
      st.cache_l2 st.db e hrel
    constructor <;> simp [process_blocks_step, hpb]

/-- Witness for C7 at a concrete failing computation. -/
theorem C7_soft_errors_never_abort_batch_witness :
    (process_blocks_step demoOracleFailing true demoBatchStateEmpty demoBlock
        []).updated_blocks
      = demoBatchStateEmpty.updated_blocks ++ [demoBlock] ∧
    (process_blocks_step demoOracleFailing true demoBatchStateEmpty demoBlock
        []).sink
      = demoBatchStateEmpty.sink ++ (if true then [demoBlock] else []) :=
  C7_soft_errors_never_abort_batch.2.2.2.2 demoOracleFailing true
    demoBatchStateEmpty demoBlock [] "compute failed" rfl

/-- C2 counterexample: at a fresh height whose protocol computation reports
no relevant transaction, the open DB transaction is nevertheless committed
(an empty commit) — the claim's "no commit of the open DB transaction
occurs" is false on the code, which reaches the `commit()` call whenever the
idempotency check was false. -/
theorem C2_counterexample_empty_commit_occurs :
    get_any_entry_in_ordinal_activities demoBlock.height demoDbEmpty = false ∧
    (demoOracleIrrelevant.compute demoBlock []).relevant = Except.ok false ∧
    (process_blocks demoOracleIrrelevant true [demoBlock] demoDbEmpty
        []).outcomes
      = [TxOutcome.committed] := by
  refine ⟨by decide, rfl, by decide⟩

/-- C2 (amended): for a block whose idempotency check is false and whose
protocol computation reports that no transaction is relevant, the step
performs no further mutation — the durable store is unchanged — and the
block is forwarded unaugmented to the sink and the return set; however the
open transaction is still committed (empty) when the engine's commit
succeeds, rather than no commit occurring. -/
theorem C2_no_relevant_tx_forwarded_unaugmented :
    ∀ (o : ProtocolOracle) (hasSink : Bool) (st : BatchState)
      (block : BitcoinBlockData) (next_blocks : List BitcoinBlockData),
      get_any_entry_in_ordinal_activities block.height st.db = false →
      (o.compute block next_blocks).relevant = Except.ok false →
      (process_blocks_step o hasSink st block next_blocks).db = st.db ∧
      (process_blocks_step o hasSink st block next_blocks).updated_blocks
        = st.updated_blocks ++ [block] ∧
      (process_blocks_step o hasSink st block next_blocks).sink
        = st.sink ++ (if hasSink then [block] else []) ∧
      (process_blocks_step o hasSink st block next_blocks).outcomes
        = st.outcomes
          ++ [if o.commitOk block then TxOutcome.committed
              else TxOutcome.commitFailed] := by
  intro o hasSink st block next_blocks hck hrel
  have hpb := process_block_not_relevant o block next_blocks st.cache_l1
    st.cache_l2 st.db hrel
  refine ⟨?_, ?_, ?_, ?_⟩ <;> simp [process_blocks_step, hck, hpb]

/-- Witness for C2 (amended) at a concrete irrelevant block. -/
theorem C2_no_relevant_tx_forwarded_unaugmented_witness :
    (process_blocks_step demoOracleIrrelevant true demoBatchStateEmpty
        demoBlock []).db = demoBatchStateEmpty.db ∧
    (process_blocks_step demoOracleIrrelevant true demoBatchStateEmpty
        demoBlock []).updated_blocks
      = demoBatchStateEmpty.updated_blocks ++ [demoBlock] ∧
    (process_blocks_step demoOracleIrrelevant true demoBatchStateEmpty
        demoBlock []).sink
      = demoBatchStateEmpty.sink ++ (if true then [demoBlock] else []) ∧
    (process_blocks_step demoOracleIrrelevant true demoBatchStateEmpty
        demoBlock []).outcomes
      = demoBatchStateEmpty.outcomes
        ++ [if demoOracleIrrelevant.commitOk demoBlock then
              TxOutcome.committed
            else TxOutcome.commitFailed] :=
  C2_no_relevant_tx_forwarded_unaugmented demoOracleIrrelevant true
    demoBatchStateEmpty demoBlock [] (by decide) rfl

/-- C4: for every `ProcessBlocks` command polled before the loop breaks, the
block store's store operation is invoked exactly once with exactly the
supplied compacted-block set — the store-call trace is precisely the list of
supplied compacted sets, in order, whether or not the full-block sets are
empty; and when the full-block set is empty, the worker returns immediately
to polling, with only the idle counter reset and the store call recorded —
in particular no DB transaction is opened. -/
theorem C4_store_called_exactly_once_per_command :
    (∀ (o : ProtocolOracle) (hasSink eventsConnected : Bool) (s : LoopState)
       (trace : List RecvResult),
       (runloop o hasSink eventsConnected s trace).storeCalls
         = s.storeCalls ++ storedSets trace) ∧
    (∀ (o : ProtocolOracle) (hasSink eventsConnected : Bool) (s : LoopState)
       (compacted_blocks : List CompactedBlock) (rest : List RecvResult),
       runloop o hasSink eventsConnected s
           (RecvResult.ok
             (PostProcessorCommand.processBlocks compacted_blocks []) :: rest)
         = runloop o hasSink eventsConnected
             { s with
                 empty_cycles := 0
                 storeCalls := s.storeCalls ++ [compacted_blocks] } rest) := by
  constructor
  · intro o hasSink eventsConnected s trace
    induction trace generalizing s with
    | nil => simp [runloop, storedSets]
    | cons r rest ih =>
        cases r with
        | empty =>
            rw [runloop, storedSets]
            split <;> rw [ih]
        | disconnected => simp [runloop, storedSets]
        | ok cmd =>
            cases cmd with
            | start => rw [runloop, storedSets]; exact ih s
            | terminate => simp [runloop, storedSets]
            | processBlocks compacted_blocks blocks =>
                rw [runloop, storedSets]
                by_cases hb : blocks.isEmpty
                · rw [if_pos hb, ih]
                  simp
                · rw [if_neg hb]
                  dsimp only
                  split <;> rw [ih] <;> simp
  · intro o hasSink eventsConnected s compacted_blocks rest
    rw [runloop]
    simp

/-- During a run of consecutive empty polls with a live events receiver, the
events delivered and the final idle counter are governed by division and
remainder by 10. -/
theorem runloop_empty_polls (o : ProtocolOracle) (hasSink : Bool) :
    ∀ (N : Nat) (s : LoopState), s.empty_cycles < 10 →
    (runloop o hasSink true s (List.replicate N RecvResult.empty)).events
      = s.events
        ++ List.replicate ((s.empty_cycles + N) / 10)
          PostProcessorEvent.emptyQueue ∧
    (runloop o hasSink true s
        (List.replicate N RecvResult.empty)).empty_cycles
      = (s.empty_cycles + N) % 10 := by
  intro N
  induction N with
  | zero =>
      intro s hlt
      rw [List.replicate]
      constructor
      · rw [runloop, Nat.add_zero, Nat.div_eq_of_lt hlt]
        simp
      · rw [runloop, Nat.add_zero, Nat.mod_eq_of_lt hlt]
  | succ n ih =>
      intro s hlt
      rw [List.replicate_succ, runloop,
        if_pos (rfl : (true : Bool) = true)]
      by_cases h9 : s.empty_cycles + 1 = 10
      · rw [if_pos h9]
        have hc : s.empty_cycles = 9 := by omega
        obtain ⟨he, hcy⟩ := ih
          { s with
              empty_cycles := 0
              events := s.events ++ [PostProcessorEvent.emptyQueue] }
          (by simp)
        constructor
        · rw [he]
          have harith : (s.empty_cycles + (n + 1)) / 10 = n / 10 + 1 := by
            rw [hc]
            omega
          rw [harith, List.replicate_succ]
          simp
        · rw [hcy, hc]
          simp
          omega
      · rw [if_neg h9]
        have hlt' : s.empty_cycles + 1 < 10 := by omega
        obtain ⟨he, hcy⟩ := ih { s with empty_cycles := s.empty_cycles + 1 }
          hlt'
        have harith : s.empty_cycles + 1 + n = s.empty_cycles + (n + 1) := by
          omega
        constructor
        · rw [he]
          simp [harith]
        · rw [hcy]
          simp [harith]

/-- C5: N consecutive empty poll cycles (from a reset idle counter, with a
live events receiver) deliver exactly ⌊N/10⌋ `EmptyQueue` events; the idle
counter increments on each empty poll, resetting exactly when the event is
emitted at 10; and it resets whenever a `ProcessBlocks` command is
received. -/
theorem C5_empty_polls_emit_floor_n_div_ten :
    (∀ (o : ProtocolOracle) (hasSink : Bool) (N : Nat) (s : LoopState),
       s.empty_cycles = 0 →
       (runloop o hasSink true s (List.replicate N RecvResult.empty)).events
         = s.events
           ++ List.replicate (N / 10) PostProcessorEvent.emptyQueue) ∧
    (∀ (o : ProtocolOracle) (hasSink eventsConnected : Bool) (s : LoopState),
       (runloop o hasSink eventsConnected s [RecvResult.empty]).empty_cycles
         = if s.empty_cycles + 1 = 10 then 0 else s.empty_cycles + 1) ∧
    (∀ (o : ProtocolOracle) (hasSink eventsConnected : Bool) (s : LoopState)
       (compacted_blocks : List CompactedBlock)
       (blocks : List BitcoinBlockData),
       (runloop o hasSink eventsConnected s
           [RecvResult.ok
             (PostProcessorCommand.processBlocks compacted_blocks
               blocks)]).empty_cycles
         = 0) := by
  refine ⟨?_, ?_, ?_⟩
  · intro o hasSink N s h0
    have := (runloop_empty_polls o hasSink N s (by omega)).1
    rwa [h0, Nat.zero_add] at this
  · intro o hasSink eventsConnected s
    rw [runloop]
    split <;> rw [runloop]
  · intro o hasSink eventsConnected s compacted_blocks blocks
    rw [runloop]
    try dsimp only
    by_cases hb : blocks.isEmpty
    · rw [if_pos hb, runloop]
    · rw [if_neg hb]
      try dsimp only
      split <;> rw [runloop]

/-- Witness for C5: 25 consecutive empty polls deliver exactly 2 events. -/
theorem C5_empty_polls_emit_floor_n_div_ten_witness :
    (runloop demoOracle true true (initLoopState demoDbEmpty)
        (List.replicate 25 RecvResult.empty)).events
      = (initLoopState demoDbEmpty).events
        ++ List.replicate (25 / 10) PostProcessorEvent.emptyQueue :=
  C5_empty_polls_emit_floor_n_div_ten.1 demoOracle true 25
    (initLoopState demoDbEmpty) rfl

set_option maxRecDepth 4096 in
/-- C3 counterexample: a batch of exactly 100 blocks is processed (100
per-block transactions reach an outcome), the cumulative counter stands at
100 — yet the L2 cache has been cleared zero times, because the code clears
only when the counter strictly exceeds the threshold of 100. The claim's
"exactly once per 100 cumulative processed blocks" is false on the code. -/
theorem C3_counterexample_no_clear_at_100_blocks :
    demoBlocks100.length = 100 ∧
    (runloop demoOracleIrrelevant true true (initLoopState demoDbEmpty)
        [RecvResult.ok
          (PostProcessorCommand.processBlocks []
            demoBlocks100)]).outcomes.length
      = 100 ∧
    (runloop demoOracleIrrelevant true true (initLoopState demoDbEmpty)
        [RecvResult.ok
          (PostProcessorCommand.processBlocks []
            demoBlocks100)]).garbage_collect_nth_block
      = 100 ∧
    (runloop demoOracleIrrelevant true true (initLoopState demoDbEmpty)
        [RecvResult.ok
          (PostProcessorCommand.processBlocks []
            demoBlocks100)]).l2Clears
      = 0 := by
  refine ⟨by decide, by decide, by decide, by decide⟩

/-- C3 (amended): after each non-empty batch the cumulative counter is
incremented by the size of the batch's result set (which equals the batch
size); the L2 cache is cleared to empty, and the counter reset to zero, when
and only when the incremented counter strictly exceeds the threshold of 100
— so a clear requires at least 101 cumulative blocks since the last clear,
not exactly 100. -/
theorem C3_l2_cleared_when_counter_strictly_exceeds_100 :
    ∀ (o : ProtocolOracle) (hasSink eventsConnected : Bool) (s : LoopState)
      (compacted_blocks : List CompactedBlock)
      (blocks : List BitcoinBlockData),
      blocks ≠ [] →
      (process_blocks o hasSink blocks s.db s.cache_l2).updated_blocks.length
        = blocks.length ∧
      (if s.garbage_collect_nth_block + blocks.length
          > garbage_collect_every_n_blocks then
        (runloop o hasSink eventsConnected s
            [RecvResult.ok
              (PostProcessorCommand.processBlocks compacted_blocks
                blocks)]).cache_l2 = [] ∧
        (runloop o hasSink eventsConnected s
            [RecvResult.ok
              (PostProcessorCommand.processBlocks compacted_blocks
                blocks)]).garbage_collect_nth_block = 0 ∧
        (runloop o hasSink eventsConnected s
            [RecvResult.ok
              (PostProcessorCommand.processBlocks compacted_blocks
                blocks)]).l2Clears = s.l2Clears + 1
      else
        (runloop o hasSink eventsConnected s
            [RecvResult.ok
              (PostProcessorCommand.processBlocks compacted_blocks
                blocks)]).cache_l2
          = (process_blocks o hasSink blocks s.db s.cache_l2).cache_l2 ∧
        (runloop o hasSink eventsConnected s
            [RecvResult.ok
              (PostProcessorCommand.processBlocks compacted_blocks
                blocks)]).garbage_collect_nth_block
          = s.garbage_collect_nth_block + blocks.length ∧
        (runloop o hasSink eventsConnected s
            [RecvResult.ok
              (PostProcessorCommand.processBlocks compacted_blocks
                blocks)]).l2Clears = s.l2Clears) := by
  intro o hasSink eventsConnected s compacted_blocks blocks hne
  have hlen : (process_blocks o hasSink blocks s.db
      s.cache_l2).updated_blocks.length = blocks.length := by
    simpa using process_blocks_go_updated_length o hasSink blocks
      { db := s.db, cache_l1 := [], cache_l2 := s.cache_l2, sink := [],
        updated_blocks := [], outcomes := [] }
  have hbe : ¬(blocks.isEmpty = true) := by
    simpa [List.isEmpty_iff] using hne
  refine ⟨hlen, ?_⟩
  rw [runloop, if_neg hbe]
  try dsimp only
  rw [hlen]
  by_cases hgc : s.garbage_collect_nth_block + blocks.length
      > garbage_collect_every_n_blocks
  · simp only [if_pos hgc]
    rw [runloop]
    exact ⟨rfl, rfl, rfl⟩
  · simp only [if_neg hgc]
    rw [runloop]
    exact ⟨rfl, rfl, rfl⟩

/-- Witness for C3 (amended): a singleton batch below the threshold keeps the
cache and increments the counter. -/
theorem C3_l2_cleared_when_counter_strictly_exceeds_100_witness :
    (process_blocks demoOracleIrrelevant true [demoBlock]
        (initLoopState demoDbEmpty).db
        (initLoopState demoDbEmpty).cache_l2).updated_blocks.length
      = [demoBlock].length ∧
    (if (initLoopState demoDbEmpty).garbage_collect_nth_block
        + [demoBlock].length > garbage_collect_every_n_blocks then
      (runloop demoOracleIrrelevant true true (initLoopState demoDbEmpty)
          [RecvResult.ok
            (PostProcessorCommand.processBlocks [] [demoBlock])]).cache_l2
        = [] ∧
      (runloop demoOracleIrrelevant true true (initLoopState demoDbEmpty)
          [RecvResult.ok
            (PostProcessorCommand.processBlocks []
              [demoBlock])]).garbage_collect_nth_block = 0 ∧
      (runloop demoOracleIrrelevant true true (initLoopState demoDbEmpty)
          [RecvResult.ok
            (PostProcessorCommand.processBlocks [] [demoBlock])]).l2Clears
        = (initLoopState demoDbEmpty).l2Clears + 1
    else
      (runloop demoOracleIrrelevant true true (initLoopState demoDbEmpty)
          [RecvResult.ok
            (PostProcessorCommand.processBlocks [] [demoBlock])]).cache_l2
        = (process_blocks demoOracleIrrelevant true [demoBlock]
            (initLoopState demoDbEmpty).db
            (initLoopState demoDbEmpty).cache_l2).cache_l2 ∧
      (runloop demoOracleIrrelevant true true (initLoopState demoDbEmpty)
          [RecvResult.ok
            (PostProcessorCommand.processBlocks []
              [demoBlock])]).garbage_collect_nth_block
        = (initLoopState demoDbEmpty).garbage_collect_nth_block
          + [demoBlock].length ∧
      (runloop demoOracleIrrelevant true true (initLoopState demoDbEmpty)
          [RecvResult.ok
            (PostProcessorCommand.processBlocks [] [demoBlock])]).l2Clears
        = (initLoopState demoDbEmpty).l2Clears) :=
  C3_l2_cleared_when_counter_strictly_exceeds_100 demoOracleIrrelevant true
    true (initLoopState demoDbEmpty) [] [demoBlock] (by decide)

/-- Once the poll loop dequeues `Terminate` or hits a receive error other
than `Empty`, everything later in the trace is ignored: the loop's result is
that of the prefix. -/
theorem runloop_stops_at_break (o : ProtocolOracle)
    (hasSink eventsConnected : Bool) (r : RecvResult)
    (hr : r = RecvResult.ok PostProcessorCommand.terminate
      ∨ r = RecvResult.disconnected) :
    ∀ (pre : List RecvResult) (s : LoopState) (suf : List RecvResult),
    runloop o hasSink eventsConnected s (pre ++ r :: suf)
      = runloop o hasSink eventsConnected s pre := by
  intro pre
  induction pre with
  | nil =>
      intro s suf
      rcases hr with h | h <;> subst h <;> simp [runloop]
  | cons q pre ih =>
      intro s suf
      cases q with
      | disconnected => simp [runloop]
      | empty =>
          simp only [List.cons_append, runloop]
          exact ih _ suf
      | ok cmd =>
          cases cmd with
          | terminate => simp [runloop]
          | start =>
              simp only [List.cons_append, runloop]
              exact ih _ suf
          | processBlocks compacted_blocks blocks =>
              simp only [List.cons_append, runloop]
              split
              · exact ih _ suf
              · exact ih _ suf

/-- C8: once `Terminate` is dequeued, or any command-channel receive error
other than `Empty` occurs, the worker never processes another command or
batch — the run over any longer trace equals the run over the prefix before
the break; and termination is only observed at the poll boundary, so an
in-flight batch drives every one of its blocks to a commit-or-rollback
outcome before the loop can exit. -/
theorem C8_terminate_only_at_poll_boundary :
    (∀ (o : ProtocolOracle) (hasSink eventsConnected : Bool) (s : LoopState)
       (pre suf : List RecvResult),
       runloop o hasSink eventsConnected s
           (pre ++ RecvResult.ok PostProcessorCommand.terminate :: suf)
         = runloop o hasSink eventsConnected s pre) ∧
    (∀ (o : ProtocolOracle) (hasSink eventsConnected : Bool) (s : LoopState)
       (pre suf : List RecvResult),
       runloop o hasSink eventsConnected s
           (pre ++ RecvResult.disconnected :: suf)
         = runloop o hasSink eventsConnected s pre) ∧
    (∀ (o : ProtocolOracle) (hasSink : Bool) (blocks : List BitcoinBlockData)
       (db : DbState) (cache_l2 : CacheL2),
       (process_blocks o hasSink blocks db cache_l2).outcomes.length
         = blocks.length) := by
  refine ⟨?_, ?_, ?_⟩
  · intro o hasSink eventsConnected s pre suf
    exact runloop_stops_at_break o hasSink eventsConnected _ (Or.inl rfl)
      pre s suf
  · intro o hasSink eventsConnected s pre suf
    exact runloop_stops_at_break o hasSink eventsConnected _ (Or.inr rfl)
      pre s suf
  · intro o hasSink blocks db cache_l2
    simpa using process_blocks_go_outcomes_length o hasSink blocks
      { db := db, cache_l1 := [], cache_l2 := cache_l2, sink := [],
        updated_blocks := [], outcomes := [] }

/-- C9: the readiness barrier consumes exactly one command before the loop
begins, whatever it is: the poll loop then runs on the trace from the fresh
initial state regardless of that first command — it is neither processed nor
treated as termination; only `Ok(Start)` produces the startup log line. -/
theorem C9_readiness_barrier_discards_first_command :
    (∀ (o : ProtocolOracle) (hasSink eventsConnected : Bool) (db0 : DbState)
       (first : Except Unit PostProcessorCommand) (trace : List RecvResult),
       (runWorker o hasSink eventsConnected db0 first trace).2
         = runloop o hasSink eventsConnected (initLoopState db0) trace) ∧
    (∀ (o : ProtocolOracle) (hasSink eventsConnected : Bool) (db0 : DbState)
       (trace : List RecvResult),
       (runWorker o hasSink eventsConnected db0
           (Except.ok PostProcessorCommand.start) trace).1
         = ["Start inscription indexing runloop"]) ∧
    (∀ (o : ProtocolOracle) (hasSink eventsConnected : Bool) (db0 : DbState)
       (first : Except Unit PostProcessorCommand) (trace : List RecvResult),
       first ≠ Except.ok PostProcessorCommand.start →
       (runWorker o hasSink eventsConnected db0 first trace).1 = []) := by
  refine ⟨?_, ?_, ?_⟩
  · intro o hasSink eventsConnected db0 first trace
    rfl
  · intro o hasSink eventsConnected db0 trace
    rfl
  · intro o hasSink eventsConnected db0 first trace h
    cases first with
    | error e => rfl
    | ok cmd =>
        cases cmd with
        | start => exact absurd rfl h
        | terminate => rfl
        | processBlocks compacted_blocks blocks => rfl

/-- Witness for C9 at a concrete non-`Start` first command. -/
theorem C9_readiness_barrier_discards_first_command_witness :
    (runWorker demoOracle true true demoDbEmpty
        (Except.ok PostProcessorCommand.terminate) []).1 = [] :=
  C9_readiness_barrier_discards_first_command.2.2 demoOracle true true
    demoDbEmpty (Except.ok PostProcessorCommand.terminate) [] (by simp)

/-- The loop's evolution — apart from the delivered-events trace itself —
does not depend on the liveness of the events receiver, nor on the events
delivered so far: the send result is discarded. -/
theorem runloop_eraseEvents_agnostic (o : ProtocolOracle) (hasSink : Bool) :
    ∀ (trace : List RecvResult) (s : LoopState)
      (e₁ e₂ : List PostProcessorEvent) (ec₁ ec₂ : Bool),
    (runloop o hasSink ec₁ { s with events := e₁ } trace).eraseEvents
      = (runloop o hasSink ec₂ { s with events := e₂ } trace).eraseEvents := by
  intro trace
  induction trace with
  | nil =>
      intro s e₁ e₂ ec₁ ec₂
      simp [runloop, LoopState.eraseEvents]
  | cons r rest ih =>
      intro s e₁ e₂ ec₁ ec₂
      cases r with
      | disconnected => simp [runloop, LoopState.eraseEvents]
      | empty =>
          simp only [runloop]
          by_cases h : s.empty_cycles + 1 = 10
          · simp only [if_pos h]
            exact ih { s with empty_cycles := 0 }
              (e₁ ++ if ec₁ = true then [PostProcessorEvent.emptyQueue]
                else [])
              (e₂ ++ if ec₂ = true then [PostProcessorEvent.emptyQueue]
                else [])
              ec₁ ec₂
          · simp only [if_neg h]
            exact ih { s with empty_cycles := s.empty_cycles + 1 } e₁ e₂
              ec₁ ec₂
      | ok cmd =>
          cases cmd with
          | terminate => simp [runloop, LoopState.eraseEvents]
          | start =>
              simp only [runloop]
              exact ih s e₁ e₂ ec₁ ec₂
          | processBlocks compacted_blocks blocks =>
              simp only [runloop]
              by_cases hb : blocks.isEmpty
              · simp only [if_pos hb]
                exact ih
                  { s with
                      empty_cycles := 0
                      storeCalls := s.storeCalls ++ [compacted_blocks] }
                  e₁ e₂ ec₁ ec₂
              · simp only [if_neg hb]
                by_cases hgc : s.garbage_collect_nth_block
                    + (process_blocks o hasSink blocks s.db
                        s.cache_l2).updated_blocks.length
                    > garbage_collect_every_n_blocks
                · simp only [if_pos hgc]
                  exact ih
                    { s with
                        empty_cycles := 0
                        storeCalls := s.storeCalls ++ [compacted_blocks]
                        db := (process_blocks o hasSink blocks s.db
                          s.cache_l2).db
                        cache_l2 := []
                        sink := s.sink
                          ++ (process_blocks o hasSink blocks s.db
                            s.cache_l2).sink
                        outcomes := s.outcomes
                          ++ (process_blocks o hasSink blocks s.db
                            s.cache_l2).outcomes
                        garbage_collect_nth_block := 0
                        l2Clears := s.l2Clears + 1 }
                    e₁ e₂ ec₁ ec₂
                · simp only [if_neg hgc]
                  exact ih
                    { s with
                        empty_cycles := 0
                        storeCalls := s.storeCalls ++ [compacted_blocks]
                        db := (process_blocks o hasSink blocks s.db
                          s.cache_l2).db
                        cache_l2 := (process_blocks o hasSink blocks s.db
                          s.cache_l2).cache_l2
                        sink := s.sink
                          ++ (process_blocks o hasSink blocks s.db
                            s.cache_l2).sink
                        outcomes := s.outcomes
                          ++ (process_blocks o hasSink blocks s.db
                            s.cache_l2).outcomes
                        garbage_collect_nth_block :=
                          s.garbage_collect_nth_block
                            + (process_blocks o hasSink blocks s.db
                              s.cache_l2).updated_blocks.length }
                    e₁ e₂ ec₁ ec₂

/-- C10: a failed event send never terminates or otherwise alters the
runloop — whether the events receiver is alive or dropped, every observable
of the run except the delivered-events trace is identical; and with a
dropped receiver no event is ever delivered, while the worker keeps polling
exactly the same. -/
theorem C10_failed_event_send_ignored :
    (∀ (o : ProtocolOracle) (hasSink : Bool) (s : LoopState)
       (trace : List RecvResult) (ec₁ ec₂ : Bool),
       (runloop o hasSink ec₁ s trace).eraseEvents
         = (runloop o hasSink ec₂ s trace).eraseEvents) ∧
    (∀ (o : ProtocolOracle) (hasSink : Bool) (trace : List RecvResult)
       (s : LoopState),
       (runloop o hasSink false s trace).events = s.events) := by
  constructor
  · intro o hasSink s trace ec₁ ec₂
    exact runloop_eraseEvents_agnostic o hasSink trace s s.events s.events
      ec₁ ec₂
  · intro o hasSink trace
    induction trace with
    | nil => intro s; simp [runloop]
    | cons r rest ih =>
        intro s
        cases r with
        | disconnected => simp [runloop]
        | empty =>
            simp only [runloop]
            split
            · rw [ih]
              simp
            · rw [ih]
        | ok cmd =>
            cases cmd with
            | terminate => simp [runloop]
            | start =>
                simp only [runloop]
                exact ih s
            | processBlocks compacted_blocks blocks =>
                simp only [runloop]
                split
                · rw [ih]
                · split <;> rw [ih]
